import Mathlib

/-!
Verification of the generic persistence layer of the ConVdeVuelta account
management service: a shallow embedding of `src/modules/database/repository.py`
(`BaseRepository`), `src/modules/database/model.py` (`BaseModel`) and the three
connection backends (`memory_connection.py`, `postgresql_connection.py`,
`dynamodb_connection.py`).

Modelling conventions:
* A relational table is a `List Row`; a `Row` carries the four base columns of
  `BaseModel` (`id`, `created_at`, `updated_at`, `deleted_at`) plus the
  entity-specific columns as an association list `payload`.
* Identifiers (UUIDs in the source) are modelled as `Nat`; timestamps
  (`DateTime` columns) as `Nat`; SQL `NULL` as `none`.  `Row.id` is an
  `Option Nat` because an in-memory entity may not have an id before its
  first save (the SQLAlchemy column default `uuid.uuid4` fires when the
  attribute is `None`); stored rows always carry `some` id.
* Calls to `datetime.utcnow()` / `func.now()` and freshly generated ids are
  passed in as explicit arguments (`now`, `genId`).
* `hasattr(self.model_class, key)` in the filter loops is modelled as
  membership of `key` in the model's declared column-name list `fields`.
* The SQL `ORDER BY created_at DESC` clause fixes no total order: rows with
  equal `created_at` may come back in any order.  `findAllResult` therefore
  relates a query to every result list the backend is allowed to return.
-/

set_option autoImplicit false

namespace ConVdeVuelta

/-- A stored row: the base columns of `BaseModel` plus the entity-specific
columns (`payload`, an association list from column name to value). -/
structure Row where
  id : Option Nat
  created_at : Nat
  updated_at : Nat
  deleted_at : Option Nat
  payload : List (String × Int)
deriving DecidableEq, Repr

/-- A filter mapping, as the `**filters` keyword dictionary of the source:
an exact-match conjunction over column/value pairs. -/
abbrev Filters := List (String × Int)

/-- The value the SQL comparison `column == value` sees for column `k` of row
`r`, as an optional integer (`none` models SQL NULL, which matches nothing). -/
def Row.colVal (r : Row) (k : String) : Option Int :=
  if k = "id" then r.id.map Int.ofNat
  else if k = "created_at" then some (Int.ofNat r.created_at)
  else if k = "updated_at" then some (Int.ofNat r.updated_at)
  else if k = "deleted_at" then r.deleted_at.map Int.ofNat
  else r.payload.lookup k

/-- The filter loop shared by `find_by`, `exists_by`, `count`, `delete_by` and
`update_by`: for each `(key, value)` pair, a `WHERE column == value` clause is
added only when `hasattr(self.model_class, key)` holds (modelled as
`fields.contains key`); unrecognized keys are skipped. -/
def matchesFilters (fields : List String) (r : Row) (fs : Filters) : Bool :=
  fs.all (fun kv => !(fields.contains kv.1) || r.colVal kv.1 == some kv.2)

/-- `BaseRepository.find_by_id`: `SELECT ... WHERE id == x`, plus
`WHERE deleted_at IS NULL` unless `includeDeleted`; `scalar_one_or_none`. -/
def find_by_id (db : List Row) (x : Nat) (includeDeleted : Bool) : Option Row :=
  db.find? (fun r => r.id == some x && (includeDeleted || r.deleted_at == none))

/-- The column-copy loop of `BaseRepository.save`: every column whose name is
not `id` or `created_at` is copied from the argument entity onto the stored
row (`updated_at`, `deleted_at` and all entity-specific columns). -/
def copyMutable (existing e : Row) : Row :=
  { existing with
    updated_at := e.updated_at
    deleted_at := e.deleted_at
    payload := e.payload }

/-- `BaseRepository.save`: if the entity has an id and `session.get` finds a
stored row with that primary key, copy all non-`id`, non-`created_at` columns
onto it and return it; otherwise insert the entity as a new row (generating an
id via the column default when the entity has none) and return it. -/
def save (db : List Row) (e : Row) (genId : Nat) : List Row × Row :=
  match e.id with
  | some i =>
    match db.find? (fun r => r.id == some i) with
    | some ex =>
      let upd := copyMutable ex e
      (db.map (fun r => if r.id == some i then upd else r), upd)
    | none => (db ++ [e], e)
  | none =>
    let row := { e with id := some genId }
    (db ++ [row], row)

/-- `BaseRepository.delete_by_id`: fetch by primary key; if absent return
`false`; else hard delete removes the row, soft delete (the default) sets
`deleted_at` to the current time (`updated_at` is bumped by the column's
`onupdate` default on commit). -/
def delete_by_id (db : List Row) (x : Nat) (hardDelete : Bool) (now : Nat) :
    List Row × Bool :=
  match db.find? (fun r => r.id == some x) with
  | none => (db, false)
  | some _ =>
    if hardDelete then
      (db.filter (fun r => !(r.id == some x)), true)
    else
      (db.map (fun r =>
        if r.id == some x then { r with deleted_at := some now, updated_at := now }
        else r), true)

/-- `BaseRepository.restore_by_id`: fetch by primary key; only when the row
exists and `is_deleted()` holds, clear `deleted_at` (`restore()`) and return
`true`; otherwise return `false` leaving the store unchanged. -/
def restore_by_id (db : List Row) (x : Nat) (now : Nat) : List Row × Bool :=
  match db.find? (fun r => r.id == some x) with
  | some e =>
    if e.deleted_at.isSome then
      (db.map (fun r =>
        if r.id == some x then { r with deleted_at := none, updated_at := now }
        else r), true)
    else (db, false)
  | none => (db, false)

/-- `BaseRepository.find_by`: soft-delete filter unless `includeDeleted`, then
the recognized-key filter conjunction.  The trailing
`ORDER BY created_at DESC` does not change which rows qualify, and both sides
of every statement about `find_by` below share it, so the embedding returns
the qualifying rows in table order. -/
def find_by (fields : List String) (db : List Row) (fs : Filters)
    (includeDeleted : Bool) : List Row :=
  db.filter (fun r =>
    (includeDeleted || r.deleted_at == none) && matchesFilters fields r fs)

/-- `BaseRepository.exists_by`: the filter conjunction with `LIMIT 1`; note it
adds no `deleted_at IS NULL` clause. -/
def exists_by (fields : List String) (db : List Row) (fs : Filters) : Bool :=
  db.any (fun r => matchesFilters fields r fs)

/-- `BaseRepository.count`: `SELECT count(id)` under the filter conjunction;
note it adds no `deleted_at IS NULL` clause. -/
def count (fields : List String) (db : List Row) (fs : Filters) : Nat :=
  (db.filter (fun r => matchesFilters fields r fs)).length

/-- `BaseRepository.exists_by_id`: routed through `find_by_id` with its
default `include_deleted=False`. -/
def exists_by_id (db : List Row) (x : Nat) : Bool :=
  (find_by_id db x false).isSome

/-- `BaseRepository.delete_by`: a SQL `DELETE FROM table WHERE filters`
statement (no `hard_delete` parameter, no `deleted_at` update); returns
`rowcount`, the number of rows the DELETE removed. -/
def delete_by (fields : List String) (db : List Row) (fs : Filters) :
    List Row × Nat :=
  (db.filter (fun r => !(matchesFilters fields r fs)),
   (db.filter (fun r => matchesFilters fields r fs)).length)

/-- `BaseRepository.delete_all`: a SQL `DELETE FROM table` with no WHERE
clause; returns `rowcount`. -/
def delete_all (db : List Row) : List Row × Nat :=
  ([], db.length)

/-- The rows a default (`include_deleted=False`) query ranges over. -/
def nonDeleted (db : List Row) : List Row :=
  db.filter (fun r => r.deleted_at == none)

/-- The result list is sorted most-recently-created first. -/
def createdDescSorted (l : List Row) : Prop :=
  List.Chain' (fun a b => b.created_at ≤ a.created_at) l

/-- `BaseRepository.find_all`: `SELECT` with the soft-delete filter (unless
`includeDeleted`), `ORDER BY created_at DESC`, then `LIMIT`/`OFFSET`.  The
ORDER BY names no tie-breaking column, so the backend may return the
qualifying rows in any order consistent with descending `created_at`; this
relation holds of every result list the query may produce. -/
def findAllResult (db : List Row) (limit offset : Nat) (includeDeleted : Bool)
    (res : List Row) : Prop :=
  ∃ s : List Row,
    s.Perm (db.filter (fun r => includeDeleted || r.deleted_at == none)) ∧
    createdDescSorted s ∧
    res = (s.drop offset).take limit

/-! The in-memory connection (`memory_connection.py`).  A record is a flat
mapping (`Rec`); the store maps table names to ordered record lists, with
Python-dict semantics (assignment updates an existing key in place, else
appends). -/

/-- A flat storage record (`Dict[str, Any]`), values modelled as integers. -/
abbrev Rec := List (String × Int)

/-- `record.get(key)` on a flat record: `none` when the key is absent. -/
def recGet (r : Rec) (k : String) : Option Int :=
  r.lookup k

/-- The match test of `find_one`/`find_many`/`count`/`exists`:
`all(record.get(key) == value for key, value in filter_dict.items())`. -/
def recMatches (fd : Rec) (r : Rec) : Bool :=
  fd.all (fun kv => recGet r kv.1 == some kv.2)

/-- `MemoryConnection` state: the `_connected` flag and the `_tables`
dictionary. -/
structure MemState where
  connected : Bool
  tables : List (String × List Rec)
deriving DecidableEq, Repr

/-- `self._tables[table_name]`, with a missing table read as the empty list
(the source returns `[]` / creates the list on that branch). -/
def MemState.tableOf (s : MemState) (t : String) : List Rec :=
  (s.tables.lookup t).getD []

/-- Python dict assignment `self._tables[t] = rows`: replace the entry in
place when the key exists, else append it. -/
def MemState.setTable (s : MemState) (t : String) (rows : List Rec) : MemState :=
  { s with
    tables :=
      if (s.tables.lookup t).isSome then
        s.tables.map (fun p => if p.1 = t then (t, rows) else p)
      else
        s.tables ++ [(t, rows)] }

/-- `MemoryConnection.insert`: create the table list if absent, append the
record exactly as given, and return the same record. -/
def memInsert (s : MemState) (t : String) (d : Rec) : MemState × Rec :=
  (s.setTable t (s.tableOf t ++ [d]), d)

/-- The `matching_records` list built by `MemoryConnection.find_many`. -/
def memMatching (s : MemState) (t : String) (fd : Rec) : List Rec :=
  (s.tableOf t).filter (recMatches fd)

/-- `MemoryConnection.find_many`: the matching records, then the slice
`matching_records[skip : skip + limit]`. -/
def memFindMany (s : MemState) (t : String) (fd : Rec) (skip limit : Nat) :
    List Rec :=
  ((memMatching s t fd).drop skip).take limit

/-! The PostgreSQL and DynamoDB connection state machines, as far as
`connect()` is concerned.  Whether the underlying driver call
(`create_async_engine` / `pynamodb.Connection`) succeeds is abstracted as the
boolean argument `ok`; the boolean in the result records whether an exception
propagates out of `connect()` to the caller. -/

/-- `PostgreSQLConnection` state: whether `_engine` is set and the
`_connected` flag. -/
structure PGState where
  engine : Bool
  connected : Bool
deriving DecidableEq, Repr

/-- `PostgreSQLConnection.is_connected`. -/
def PGState.is_connected (s : PGState) : Bool :=
  s.connected && s.engine

/-- `PostgreSQLConnection.connect`: early-return when `_engine` is already
set; on driver success set the engine and the flag; on driver failure print,
set `_connected = False` and re-raise. -/
def pgConnect (s : PGState) (ok : Bool) : PGState × Bool :=
  if s.engine then (s, false)
  else if ok then ({ engine := true, connected := true }, false)
  else ({ s with connected := false }, true)

/-- `DynamoDBConnection` state: the `_connected` flag and whether
`_connection` holds a client. -/
structure DynState where
  connected : Bool
  hasClient : Bool
deriving DecidableEq, Repr

/-- `DynamoDBConnection.connect`: always rebuilds the client; on driver
failure the `except` block prints, sets `_connected = False` and returns
without re-raising (the exception is swallowed). -/
def dynConnect (s : DynState) (ok : Bool) : DynState × Bool :=
  if ok then ({ connected := true, hasClient := true }, false)
  else ({ connected := false, hasClient := s.hasClient }, false)

/-- An insert payload for the dynamic pynamodb model built by
`DynamoDBConnection._create_dynamic_model`: it declares exactly the
attributes `id` (the hash key, no default), `created_at` and `updated_at`
(both nullable); `none` is an attribute not set in the record.  (A keyword
outside these three raises at model construction and is outside this
model.) -/
structure DynRec where
  id : Option Int
  created_at : Option Int
  updated_at : Option Int
deriving DecidableEq, Repr

/-- `DynamoDBConnection.insert`: builds the dynamic model from the record and
calls `item.save()`.  pynamodb raises when the `id` hash key is absent —
both `except` branches re-raise, so the error propagates (`none`) and nothing
is stored; on success the returned `attribute_values` echo exactly the
attributes that were given.  No default is assigned for `id` or any other
field in either case. -/
def dynInsert (d : DynRec) : Option DynRec :=
  match d.id with
  | none => none
  | some _ => some d

/-! Concrete rows and stores used to evaluate the theorems below. -/

/-- A stored row with id 1. -/
def r1 : Row :=
  { id := some 1, created_at := 10, updated_at := 10, deleted_at := none,
    payload := [("age", 30)] }

/-- An entity carrying id 1 with changed mutable fields and a (to-be-ignored)
different `created_at`. -/
def e1 : Row :=
  { id := some 1, created_at := 99, updated_at := 20, deleted_at := none,
    payload := [("age", 31)] }

/-- Two non-deleted rows sharing one `created_at` timestamp. -/
def rowTieA : Row :=
  { id := some 1, created_at := 5, updated_at := 5, deleted_at := none,
    payload := [] }

/-- Second row of the tie. -/
def rowTieB : Row :=
  { id := some 2, created_at := 5, updated_at := 5, deleted_at := none,
    payload := [] }

/-- A table holding exactly the two tied rows. -/
def tieDb : List Row := [rowTieA, rowTieB]

/-- The column names of an example model with one entity column `age`. -/
def exFields : List String :=
  ["id", "created_at", "updated_at", "deleted_at", "age"]

/-- A row matching the filter `age == 30`, with id 7. -/
def rowDel : Row :=
  { id := some 7, created_at := 3, updated_at := 3, deleted_at := none,
    payload := [("age", 30)] }

/-- A soft-deleted row with id 4 matching `age == 30`. -/
def rowSoft : Row :=
  { id := some 4, created_at := 6, updated_at := 8, deleted_at := some 8,
    payload := [("age", 30)] }

/-- A record with no `id` key. -/
def noIdRec : Rec := [("age", 30)]

/-- A connected in-memory store with no tables. -/
def memFresh : MemState := { connected := true, tables := [] }

/-- A fresh, never-connected DynamoDB connection state. -/
def dynFresh : DynState := { connected := false, hasClient := false }

/-- Page `n` of size `k` drawn from one fixed result ordering `s`: the slice a
backend produces for `LIMIT k OFFSET n*k` when it enumerates the rows in the
order `s`. -/
def pageFrom (s : List Row) (k n : Nat) : List Row :=
  (s.drop (n * k)).take k

/-- The ordering constraint `ORDER BY created_at DESC` imposes is
transitive. -/
instance : IsTrans Row (fun a b => b.created_at ≤ a.created_at) :=
  ⟨fun _ _ _ h1 h2 => le_trans h2 h1⟩

/-! Theorems. -/

/-- C1: `Repository.save` is an upsert: when the entity's id is set and a
stored row carries that id, `save` copies every mutable column onto the stored
row, never overwriting its `id` or `created_at`, and returns the persisted
row (which is in the resulting store); when no row carries that id, `save`
inserts the entity as a new record and returns it. -/
theorem save_upsert (db : List Row) (e ex : Row) (i genId : Nat)
    (hid : e.id = some i) :
    (db.find? (fun r => r.id == some i) = some ex →
      save db e genId =
        (db.map (fun r => if r.id == some i then copyMutable ex e else r),
         copyMutable ex e) ∧
      (copyMutable ex e).id = ex.id ∧
      (copyMutable ex e).created_at = ex.created_at ∧
      (copyMutable ex e).updated_at = e.updated_at ∧
      (copyMutable ex e).deleted_at = e.deleted_at ∧
      (copyMutable ex e).payload = e.payload ∧
      copyMutable ex e ∈ (save db e genId).1) ∧
    (db.find? (fun r => r.id == some i) = none →
      save db e genId = (db ++ [e], e)) := by
  constructor
  · intro hfind
    have hsave : save db e genId =
        (db.map (fun r => if r.id == some i then copyMutable ex e else r),
         copyMutable ex e) := by
      simp [save, hid, hfind]
    refine ⟨hsave, rfl, rfl, rfl, rfl, rfl, ?_⟩
    have hmem : ex ∈ db := List.mem_of_find?_eq_some hfind
    have hpred : (ex.id == some i) = true := by
      simpa using List.find?_some hfind
    rw [hsave]
    exact List.mem_map.mpr ⟨ex, hmem, by simp [hpred]⟩
  · intro hfind
    simp [save, hid, hfind]

/-- Witness for C1: the stored row keeps `created_at = 10` and id 1 while its
mutable column takes the entity's value; saving into an empty table inserts
the entity unchanged. -/
theorem save_upsert_witness :
    ((copyMutable r1 e1).created_at = 10 ∧ (copyMutable r1 e1).id = some 1 ∧
      (copyMutable r1 e1).payload = [("age", 31)]) ∧
    save [] e1 5 = ([e1], e1) := by
  refine ⟨?_, (save_upsert [] e1 r1 1 5 rfl).2 rfl⟩
  have h1 := (save_upsert [r1] e1 r1 1 5 rfl).1 (by rfl)
  exact ⟨h1.2.2.1, h1.2.1, h1.2.2.2.2.2.1⟩

/-- C2: when a row with id `x` is stored, `delete_by_id x` at its soft
default returns `true`, a subsequent default `find_by_id x` returns `none`,
and `find_by_id x` with `include_deleted` returns a row whose `deleted_at` is
set (non-null). -/
theorem soft_delete_then_find (db : List Row) (x now : Nat)
    (hex : (db.find? (fun r => r.id == some x)).isSome) :
    (delete_by_id db x false now).2 = true ∧
    find_by_id (delete_by_id db x false now).1 x false = none ∧
    ∃ r, find_by_id (delete_by_id db x false now).1 x true = some r ∧
      r.deleted_at = some now := by
  obtain ⟨ex, hfind⟩ := Option.isSome_iff_exists.mp hex
  have hdel : delete_by_id db x false now =
      (db.map (fun r => if r.id == some x
          then { r with deleted_at := some now, updated_at := now } else r),
       true) := by
    simp [delete_by_id, hfind]
  rw [hdel]
  refine ⟨rfl, ?_, ?_⟩
  · unfold find_by_id
    apply List.find?_eq_none.mpr
    intro a ha hp
    obtain ⟨r0, _hr0, rfl⟩ := List.mem_map.mp ha
    by_cases h : (r0.id == some x) = true
    · simp [h] at hp
    · rw [Bool.not_eq_true] at h
      simp [h] at hp
  · refine ⟨{ ex with deleted_at := some now, updated_at := now }, ?_, rfl⟩
    unfold find_by_id
    rw [List.find?_map]
    have hcomp : ((fun (r : Row) => r.id == some x && (true || r.deleted_at == none)) ∘
        (fun (r : Row) => if r.id == some x
          then { r with deleted_at := some now, updated_at := now } else r))
        = fun (r : Row) => r.id == some x := by
      funext r0
      by_cases h : (r0.id == some x) = true
      · simp [Function.comp, h]
      · rw [Bool.not_eq_true] at h
        simp [Function.comp, h]
    rw [hcomp, hfind]
    have hpred : (ex.id == some x) = true := by
      simpa using List.find?_some hfind
    simp [hpred]
    intro h
    exact absurd (by simpa using hpred) h

/-- Witness for C2: soft-deleting the stored row with id 7 hides it from the
default lookup but keeps it reachable with `include_deleted`. -/
theorem soft_delete_then_find_witness :
    (delete_by_id [rowDel] 7 false 42).2 = true ∧
    find_by_id (delete_by_id [rowDel] 7 false 42).1 7 false = none ∧
    ∃ r, find_by_id (delete_by_id [rowDel] 7 false 42).1 7 true = some r ∧
      r.deleted_at = some 42 :=
  soft_delete_then_find [rowDel] 7 42 (by rfl)

/-- C6: `restore_by_id` on a stored soft-deleted row returns `true` and makes
the default `find_by_id` succeed with `deleted_at = none`; when the row does
not exist, or exists but is not soft-deleted, it returns `false` and leaves
the store unchanged. -/
theorem restore_by_id_spec (db : List Row) (x now : Nat) :
    (∀ ex, db.find? (fun r => r.id == some x) = some ex →
      ex.deleted_at.isSome = true →
      (restore_by_id db x now).2 = true ∧
      ∃ r, find_by_id (restore_by_id db x now).1 x false = some r ∧
        r.deleted_at = none) ∧
    (db.find? (fun r => r.id == some x) = none →
      restore_by_id db x now = (db, false)) ∧
    (∀ ex, db.find? (fun r => r.id == some x) = some ex → ex.deleted_at = none →
      restore_by_id db x now = (db, false)) := by
  refine ⟨?_, ?_, ?_⟩
  · intro ex hfind hdel
    have hres : restore_by_id db x now =
        (db.map (fun r => if r.id == some x
            then { r with deleted_at := none, updated_at := now } else r),
         true) := by
      simp [restore_by_id, hfind, hdel]
    rw [hres]
    refine ⟨rfl, { ex with deleted_at := none, updated_at := now }, ?_, rfl⟩
    unfold find_by_id
    rw [List.find?_map]
    have hcomp : ((fun (r : Row) => r.id == some x && (false || r.deleted_at == none)) ∘
        (fun (r : Row) => if r.id == some x
          then { r with deleted_at := none, updated_at := now } else r))
        = fun (r : Row) => r.id == some x := by
      funext r0
      by_cases h : (r0.id == some x) = true
      · simp [Function.comp, h]
      · rw [Bool.not_eq_true] at h
        simp [Function.comp, h]
    rw [hcomp, hfind]
    have hpred : (ex.id == some x) = true := by
      simpa using List.find?_some hfind
    simp [hpred]
    intro h
    exact absurd (by simpa using hpred) h
  · intro hfind
    simp [restore_by_id, hfind]
  · intro ex hfind hdel
    simp [restore_by_id, hfind, hdel]

/-- Witness for C6: restoring the soft-deleted row with id 4 succeeds and the
row becomes visible again; restoring a missing id 9 or the live row with id 7
returns `false` and changes nothing. -/
theorem restore_by_id_spec_witness :
    ((restore_by_id [rowSoft] 4 9).2 = true ∧
      ∃ r, find_by_id (restore_by_id [rowSoft] 4 9).1 4 false = some r ∧
        r.deleted_at = none) ∧
    restore_by_id [rowDel] 9 9 = ([rowDel], false) ∧
    restore_by_id [rowDel] 7 9 = ([rowDel], false) :=
  ⟨(restore_by_id_spec [rowSoft] 4 9).1 rowSoft (by rfl) (by rfl),
   (restore_by_id_spec [rowDel] 9 9).2.1 (by rfl),
   (restore_by_id_spec [rowDel] 7 9).2.2 rowDel (by rfl) (by rfl)⟩

/-- Elements rejected by `q` contribute nothing to an `all` whose predicate
accepts them, so they can be filtered away first. -/
theorem all_filter_skip {α : Type} (q p : α → Bool)
    (hp : ∀ a, q a = false → p a = true) (l : List α) :
    (l.filter q).all p = l.all p := by
  induction l with
  | nil => rfl
  | cons a t ih =>
    cases hq : q a with
    | false => simp [List.filter_cons, hq, hp a hq, ih]
    | true => simp [List.filter_cons, hq, ih]

/-- Dropping the keys the model does not recognize from a filter mapping does
not change whether a row matches. -/
theorem matchesFilters_filter_known (fields : List String) (r : Row)
    (fs : Filters) :
    matchesFilters fields r (fs.filter (fun kv => fields.contains kv.1)) =
      matchesFilters fields r fs := by
  unfold matchesFilters
  exact all_filter_skip _ _ (fun a ha => by rw [ha]; rfl) fs

/-- C9: `find_by` silently ignores filter keys that are not recognized model
columns (the `hasattr` guard skips them, raising nothing): its result equals
`find_by` on the same mapping with the unknown keys removed. -/
theorem find_by_ignores_unknown_keys (fields : List String) (db : List Row)
    (fs : Filters) (includeDeleted : Bool) :
    find_by fields db fs includeDeleted =
      find_by fields db (fs.filter (fun kv => fields.contains kv.1))
        includeDeleted := by
  unfold find_by
  apply List.filter_congr
  intro r _hr
  rw [matchesFilters_filter_known]

/-- C10: `exists_by` and `count` add no soft-delete clause, so a soft-deleted
row matching the filters still makes `exists_by` true and is included in
`count`, while `exists_by_id` on the same row's id is false because it routes
through the soft-delete-excluding `find_by_id`. -/
theorem exists_count_include_soft_deleted (fields : List String) (db : List Row)
    (fs : Filters) (r : Row) (x : Nat)
    (hmem : r ∈ db) (hmatch : matchesFilters fields r fs = true)
    (hdel : r.deleted_at ≠ none) (hidx : r.id = some x)
    (huniq : ∀ r', r' ∈ db → r'.id = some x → r' = r) :
    exists_by fields db fs = true ∧ 1 ≤ count fields db fs ∧
      exists_by_id db x = false := by
  refine ⟨List.any_eq_true.mpr ⟨r, hmem, hmatch⟩, ?_, ?_⟩
  · exact List.length_pos_of_mem (List.mem_filter.mpr ⟨hmem, hmatch⟩)
  · have hnone : find_by_id db x false = none := by
      unfold find_by_id
      apply List.find?_eq_none.mpr
      intro a ha hp
      rw [Bool.and_eq_true] at hp
      have haid : a.id = some x := by simpa using hp.1
      obtain rfl := huniq a ha haid
      have hnil : a.deleted_at = none := by simpa using hp.2
      exact hdel hnil
    unfold exists_by_id
    rw [hnone]
    rfl

/-- Witness for C10: the soft-deleted row with id 4 and `age = 30` is seen by
`exists_by` and `count` but not by `exists_by_id`. -/
theorem exists_count_include_soft_deleted_witness :
    exists_by exFields [rowSoft] [("age", 30)] = true ∧
    1 ≤ count exFields [rowSoft] [("age", 30)] ∧
    exists_by_id [rowSoft] 4 = false :=
  exists_count_include_soft_deleted exFields [rowSoft] [("age", 30)] rowSoft 4
    (by decide) (by decide) (by decide) (by decide) (by decide)

/-- C3 counterexample: `delete_by` issues a plain SQL DELETE (the method has
no `hard_delete` parameter and never touches `deleted_at`): after deleting by
the filter `age == 30`, the matching row with id 7 is physically gone and
unreachable even with `include_deleted=True`, refuting the claim that the
bulk delete soft-deletes by default. -/
theorem delete_by_physical_counterexample :
    (delete_by exFields [rowDel] [("age", 30)]).2 = 1 ∧
    (delete_by exFields [rowDel] [("age", 30)]).1 = [] ∧
    find_by_id (delete_by exFields [rowDel] [("age", 30)]).1 7 true = none := by
  refine ⟨by decide, by decide, by decide⟩

/-- C3 amended: `delete_by(filters)` physically removes every matching record
(it has no `hardDelete` parameter and performs no soft delete) and returns
the number of rows removed, which is exactly `count` on the same filters;
non-matching rows survive, and `delete_all` removes every row returning the
former table size. -/
theorem delete_by_removes_and_counts (fields : List String) (db : List Row)
    (fs : Filters) :
    (delete_by fields db fs).2 = count fields db fs ∧
    (∀ r ∈ db, matchesFilters fields r fs = true →
      r ∉ (delete_by fields db fs).1) ∧
    (∀ r ∈ db, matchesFilters fields r fs = false →
      r ∈ (delete_by fields db fs).1) ∧
    delete_all db = ([], db.length) := by
  refine ⟨rfl, ?_, ?_, rfl⟩
  · intro r _hmem hm hcontra
    have hneg := (List.mem_filter.mp hcontra).2
    rw [hm] at hneg
    simp at hneg
  · intro r hmem hm
    exact List.mem_filter.mpr ⟨hmem, by rw [hm]; rfl⟩

/-- Witness for the amended C3: on a table holding a live and a soft-deleted
row that both match `age == 30`, the bulk delete reports the `count` of both
and removes the matching live row. -/
theorem delete_by_removes_and_counts_witness :
    (delete_by exFields [rowDel, rowSoft] [("age", 30)]).2 =
      count exFields [rowDel, rowSoft] [("age", 30)] ∧
    rowDel ∉ (delete_by exFields [rowDel, rowSoft] [("age", 30)]).1 := by
  have h := delete_by_removes_and_counts exFields [rowDel, rowSoft] [("age", 30)]
  exact ⟨h.1, h.2.1 rowDel (by decide) (by decide)⟩

/-- C4 counterexample: both interleavings of the two rows sharing
`created_at = 5` satisfy the `find_all` query contract, because the emitted
`ORDER BY created_at DESC` names no tie-breaking column; the result order on
ties is therefore not determined, and in particular not broken by id, refuting
the claimed stable deterministic id-tie-broken order. -/
theorem find_all_no_id_tiebreak_counterexample :
    findAllResult tieDb 100 0 false [rowTieA, rowTieB] ∧
    findAllResult tieDb 100 0 false [rowTieB, rowTieA] ∧
    [rowTieA, rowTieB] ≠ [rowTieB, rowTieA] := by
  refine ⟨⟨[rowTieA, rowTieB], by decide, ?_, rfl⟩,
          ⟨[rowTieB, rowTieA], by decide, ?_, rfl⟩, by decide⟩
  · exact List.chain'_pair.mpr (by decide)
  · exact List.chain'_pair.mpr (by decide)

/-- C4 amended: every result `find_all` may return lists non-deleted stored
rows ordered most-recently-created first (and is all of them, up to order,
when `offset = 0` and the limit covers the table), but the relative order of
rows with equal `created_at` is left unspecified by the code: no id tie-break
is applied. -/
theorem find_all_sorted_and_complete (db : List Row) (limit offset : Nat)
    (res : List Row) (h : findAllResult db limit offset false res) :
    createdDescSorted res ∧
    (∀ r ∈ res, r ∈ db ∧ r.deleted_at = none) ∧
    (offset = 0 → db.length ≤ limit → res.Perm (nonDeleted db)) := by
  obtain ⟨s, hperm, hsort, hres⟩ := h
  have hfilter : db.filter (fun r => false || r.deleted_at == none)
      = nonDeleted db := by
    unfold nonDeleted
    simp
  rw [hfilter] at hperm
  have hsub : List.Sublist res s :=
    (hres ▸ List.take_sublist limit (s.drop offset)).trans
      (List.drop_sublist offset s)
  refine ⟨hsort.sublist hsub, ?_, ?_⟩
  · intro r hr
    have hrs : r ∈ s := hsub.mem hr
    have hrf : r ∈ nonDeleted db := hperm.mem_iff.mp hrs
    have hm := List.mem_filter.mp hrf
    exact ⟨hm.1, by simpa using hm.2⟩
  · intro hoff hlim
    have hlen : s.length ≤ limit := by
      calc s.length = (nonDeleted db).length := hperm.length_eq
        _ ≤ db.length := List.length_filter_le _ _
        _ ≤ limit := hlim
    rw [hres, hoff, List.drop_zero, List.take_of_length_le hlen]
    exact hperm

/-- Witness for the amended C4: the full-table query over the tied rows in
table order is sorted, draws from the live rows, and is a permutation of all
of them. -/
theorem find_all_sorted_and_complete_witness :
    createdDescSorted [rowTieA, rowTieB] ∧
    (∀ r ∈ [rowTieA, rowTieB], r ∈ tieDb ∧ r.deleted_at = none) ∧
    (0 = 0 → tieDb.length ≤ 100 → List.Perm [rowTieA, rowTieB] (nonDeleted tieDb)) :=
  find_all_sorted_and_complete tieDb 100 0 [rowTieA, rowTieB]
    ⟨[rowTieA, rowTieB], by decide, List.chain'_pair.mpr (by decide), rfl⟩

/-- C5 counterexample: with two live rows tied on `created_at`, the backend
may enumerate them differently on each execution: page 0 of size 1 can return
the first row and page 1 (offset 1) can return that same row again, so the
concatenated pages list one live row twice and omit the other — refuting the
claim that stepping the offset by the limit yields each non-deleted record
exactly once. -/
theorem find_all_pagination_counterexample :
    findAllResult tieDb 1 0 false [rowTieA] ∧
    findAllResult tieDb 1 1 false [rowTieA] ∧
    ([rowTieA] ++ [rowTieA]).count rowTieA = 2 ∧
    rowTieB ∈ tieDb ∧ rowTieB.deleted_at = none ∧
    rowTieB ∉ ([rowTieA] ++ [rowTieA]) := by
  refine ⟨⟨[rowTieA, rowTieB], by decide, List.chain'_pair.mpr (by decide), rfl⟩,
          ⟨[rowTieB, rowTieA], by decide, List.chain'_pair.mpr (by decide), rfl⟩,
          by decide, by decide, rfl, by decide⟩

/-- Slicing a list into consecutive chunks of size `k` and concatenating the
chunks restores the list, once enough chunks are taken to cover it. -/
theorem flatten_chunks {α : Type} (k : Nat) :
    ∀ (m : Nat) (l : List α), l.length ≤ m * k →
      ((List.range m).map (fun n => (l.drop (n * k)).take k)).flatten = l := by
  intro m
  induction m with
  | zero =>
    intro l hl
    have hnil : l = [] := List.eq_nil_of_length_eq_zero (by omega)
    simp [hnil]
  | succ m ih =>
    intro l hl
    rw [List.range_succ_eq_map, List.map_cons, List.map_map, List.flatten_cons]
    have hfun : ((fun n => (l.drop (n * k)).take k) ∘ (· + 1))
        = (fun n => ((l.drop k).drop (n * k)).take k) := by
      funext n
      show (l.drop ((n + 1) * k)).take k = ((l.drop k).drop (n * k)).take k
      rw [List.drop_drop]
      have harith : (n + 1) * k = k + n * k := by ring
      rw [harith]
    rw [hfun, ih (l.drop k) ?_]
    · simp only [Nat.zero_mul, List.drop_zero]
      exact List.take_append_drop k l
    · have hmk : (m + 1) * k = m * k + k := by ring
      simp only [List.length_drop]
      omega

/-- C5 amended: offset-stepped pagination covers each record exactly once
provided every page is drawn from one fixed enumeration of the rows: the
pages sliced from a single admissible ordering `s` are each valid `find_all`
answers and concatenate to exactly the non-deleted rows; likewise the
in-memory `find_many`, which scans a stable list, covers each matching record
exactly once.  (Per the counterexample, the guarantee is lost when the
backend reorders rows with equal `created_at` between calls.) -/
theorem pagination_exact_with_fixed_order (db : List Row) (s : List Row)
    (k m : Nat) (_hk : 0 < k)
    (hperm : s.Perm (db.filter (fun r => false || r.deleted_at == none)))
    (hsort : createdDescSorted s) (hm : s.length ≤ m * k) :
    (∀ n, findAllResult db k (n * k) false (pageFrom s k n)) ∧
    ((List.range m).map (pageFrom s k)).flatten = s ∧
    s.Perm (nonDeleted db) ∧
    (∀ (st : MemState) (t : String) (fd : Rec) (m' : Nat),
      (memMatching st t fd).length ≤ m' * k →
      ((List.range m').map (fun n => memFindMany st t fd (n * k) k)).flatten =
        memMatching st t fd) := by
  refine ⟨?_, ?_, ?_, ?_⟩
  · intro n
    exact ⟨s, hperm, hsort, rfl⟩
  · exact flatten_chunks k m s hm
  · have hfilter : db.filter (fun r => false || r.deleted_at == none)
        = nonDeleted db := by
      unfold nonDeleted
      simp
    rwa [hfilter] at hperm
  · intro st t fd m' hm'
    exact flatten_chunks k m' (memMatching st t fd) hm'

/-- Witness for the amended C5: pages of size 1 drawn from the fixed order
`[rowTieA, rowTieB]` concatenate to both live rows, each exactly once. -/
theorem pagination_exact_with_fixed_order_witness :
    ((List.range 2).map (pageFrom [rowTieA, rowTieB] 1)).flatten =
      [rowTieA, rowTieB] ∧
    List.Perm [rowTieA, rowTieB] (nonDeleted tieDb) :=
  have h := pagination_exact_with_fixed_order tieDb [rowTieA, rowTieB] 1 2
    (by decide) (by decide) (List.chain'_pair.mpr (by decide)) (by decide)
  ⟨h.2.1, h.2.2.1⟩

/-- C7 counterexample: a failed `DynamoDBConnection.connect` leaves the state
disconnected but returns normally — the `except` block swallows the driver
error instead of re-raising — refuting the claim that for every backend a
failed connect surfaces a ConnectionError and never silently returns. -/
theorem dynamo_connect_swallows_failure :
    (dynConnect dynFresh false).1.connected = false ∧
    (dynConnect dynFresh false).2 = false := by
  decide

/-- C7 amended: `PostgreSQLConnection.connect` is a no-op when the engine is
already initialized, and a failed driver call leaves it disconnected and
re-raises to the caller; `DynamoDBConnection.connect`, however, swallows a
driver failure: it leaves the state disconnected but returns without
raising. -/
theorem connect_failure_behavior (s : PGState) (d : DynState) (ok : Bool) :
    (s.engine = true → pgConnect s ok = (s, false)) ∧
    (s.engine = false →
      (pgConnect s false).1.is_connected = false ∧
      (pgConnect s false).2 = true) ∧
    (dynConnect d false).1.connected = false ∧
    (dynConnect d false).2 = false := by
  refine ⟨?_, ?_, ?_, ?_⟩
  · intro h
    simp [pgConnect, h]
  · intro h
    simp [pgConnect, h, PGState.is_connected]
  · simp [dynConnect]
  · simp [dynConnect]

/-- Witness for the amended C7: a connection whose engine is initialized is
untouched by `connect`, and a fresh connection whose driver call fails ends
disconnected with the error propagating. -/
theorem connect_failure_behavior_witness :
    pgConnect { engine := true, connected := true } true =
      ({ engine := true, connected := true }, false) ∧
    (pgConnect { engine := false, connected := false } false).1.is_connected
      = false ∧
    (pgConnect { engine := false, connected := false } false).2 = true :=
  have h1 := connect_failure_behavior { engine := true, connected := true }
    dynFresh true
  have h2 := connect_failure_behavior { engine := false, connected := false }
    dynFresh false
  ⟨h1.1 rfl, (h2.2.1 rfl).1, (h2.2.1 rfl).2⟩

/-- Looking up the key whose entry was replaced in place yields the new
value. -/
theorem lookup_map_replace (l : List (String × List Rec)) (t : String)
    (b : List Rec) (h : (l.lookup t).isSome = true) :
    (l.map (fun p => if p.1 = t then (t, b) else p)).lookup t = some b := by
  induction l with
  | nil => simp [List.lookup] at h
  | cons p tl ih =>
    obtain ⟨k, v⟩ := p
    by_cases hk : k = t
    · subst hk
      rw [List.map_cons, if_pos (rfl : ((k, v) : String × List Rec).1 = k)]
      simp [List.lookup]
    · have hbk : (t == k) = false :=
        beq_eq_false_iff_ne.mpr (fun he => hk he.symm)
      rw [List.map_cons, if_neg hk]
      simp only [List.lookup, hbk] at h ⊢
      exact ih h

/-- Looking up a key absent from the prefix finds the entry appended at the
end. -/
theorem lookup_append_missing (l : List (String × List Rec)) (t : String)
    (b : List Rec) (h : l.lookup t = none) :
    (l ++ [(t, b)]).lookup t = some b := by
  induction l with
  | nil => simp [List.lookup]
  | cons p tl ih =>
    obtain ⟨k, v⟩ := p
    by_cases hbk : (t == k) = true
    · simp only [List.lookup, hbk] at h
      cases h
    · rw [Bool.not_eq_true] at hbk
      simp only [List.lookup, hbk] at h
      simp only [List.cons_append, List.lookup, hbk]
      exact ih h

/-- Reading back the table just written by `setTable` yields exactly the
written rows. -/
theorem tableOf_setTable (s : MemState) (t : String) (rows : List Rec) :
    (s.setTable t rows).tableOf t = rows := by
  unfold MemState.setTable MemState.tableOf
  by_cases h : (s.tables.lookup t).isSome = true
  · simp only [h, if_true]
    rw [lookup_map_replace s.tables t rows h]
    rfl
  · rw [Bool.not_eq_true] at h
    have hnone : s.tables.lookup t = none := by
      cases hc : s.tables.lookup t <;> simp [hc] at h ⊢
    simp only [h, Bool.false_eq_true, if_false]
    rw [lookup_append_missing s.tables t rows hnone]
    rfl

/-- C8 counterexample: `MemoryConnection.insert` stores and returns the
record exactly as given; inserting a record with no `id` key leaves both the
stored and the returned record without an `id`, refuting the claim that the
connection assigns defaults for generated fields not already present. -/
theorem memory_insert_no_defaults_counterexample :
    (memInsert memFresh "users" noIdRec).2 = noIdRec ∧
    recGet (memInsert memFresh "users" noIdRec).2 "id" = none ∧
    (memInsert memFresh "users" noIdRec).1.tableOf "users" = [noIdRec] := by
  refine ⟨rfl, by decide, by decide⟩

/-- C8 amended: neither cited backend's `insert` assigns defaults for
generated fields.  `MemoryConnection.insert` appends the record to the table
unchanged and returns the very record it was given; `DynamoDBConnection.insert`
propagates an error when the record lacks the `id` hash key (nothing is
stored, no id is generated) and on success echoes exactly the attributes it
was given.  Generated-field defaults live in the entity/ORM layer, not in the
connections. -/
theorem insert_assigns_no_defaults (s : MemState) (t : String) (d : Rec)
    (dd : DynRec) :
    (memInsert s t d).2 = d ∧
    (memInsert s t d).1.tableOf t = s.tableOf t ++ [d] ∧
    (dd.id = none → dynInsert dd = none) ∧
    (∀ i, dd.id = some i → dynInsert dd = some dd) := by
  refine ⟨rfl, tableOf_setTable s t (s.tableOf t ++ [d]), ?_, ?_⟩
  · intro h
    simp [dynInsert, h]
  · intro i h
    simp [dynInsert, h]

/-- Witness for the amended C8: the memory connection returns the id-less
record unchanged; the DynamoDB insert errors on an id-less record and echoes
an id-bearing record as given. -/
theorem insert_assigns_no_defaults_witness :
    (memInsert memFresh "users" noIdRec).2 = noIdRec ∧
    dynInsert { id := none, created_at := some 1, updated_at := none } = none ∧
    dynInsert { id := some 9, created_at := some 1, updated_at := none } =
      some { id := some 9, created_at := some 1, updated_at := none } :=
  have h1 := insert_assigns_no_defaults memFresh "users" noIdRec
    { id := none, created_at := some 1, updated_at := none }
  have h2 := insert_assigns_no_defaults memFresh "users" noIdRec
    { id := some 9, created_at := some 1, updated_at := none }
  ⟨h1.1, h1.2.2.1 rfl, h2.2.2.2 9 rfl⟩

end ConVdeVuelta
